import Mathlib

/-!
Verification of the Mall-Billing-System checkout, cart, promo and reporting
logic (`mall_billing_system/app.py`) against its specification.

Modelling conventions:
* Python floats holding currency are modelled as rationals (`ℚ`); Python's
  `round(x, 2)` (round-half-to-even on two decimal places) is modelled by
  `round2` below.
* Database rows become Lean structures, tables become lists; session state,
  the cart and the clock are gathered in a `State` record.
* Timestamps (`datetime` values) are modelled as integers with their order;
  calendar dates used by the reporting rollup are handled by an explicit
  proleptic-Gregorian day count (`daysFromCivil` / `civilFromDays`).
* The request handlers `checkout` and `pos` (GET branch) are translated into
  pure functions from `State` and form input to results; every failure path
  of `checkout` happens before the atomic write, so a failing request
  returns the untouched state.
-/

namespace MallBilling

/-- Uppercase one ASCII character, as Python's `str.upper` does on the
letters that occur in promo codes. -/
def upChar (c : Char) : Char :=
  if 'a' ≤ c ∧ c ≤ 'z' then Char.ofNat (c.toNat - 32) else c

/-- Model of `s.strip().upper()` applied to a form field: drop surrounding
whitespace, then uppercase. -/
def normalizeCode (s : String) : String :=
  ⟨(((s.data.dropWhile (·.isWhitespace)).reverse.dropWhile (·.isWhitespace)).reverse).map upChar⟩

/-- Round a rational to the nearest integer, ties to even: the semantics of
Python 3's builtin `round`. -/
def rhe (x : ℚ) : ℤ :=
  if x - ⌊x⌋ < 1/2 then ⌊x⌋
  else if 1/2 < x - ⌊x⌋ then ⌊x⌋ + 1
  else if ⌊x⌋ % 2 = 0 then ⌊x⌋ else ⌊x⌋ + 1

/-- Model of Python's `round(x, 2)`. -/
def round2 (x : ℚ) : ℚ := (rhe (100 * x) : ℚ) / 100

/-- Row of the `product` table (`app.py` lines 39-46); the display-only
`image_url` column is omitted. -/
structure Product where
  id : ℕ
  name : String
  barcode : String
  price : ℚ
  stock : ℤ
  low_stock : Bool
deriving Repr, DecidableEq

/-- Row of the `promocode` table (`app.py` lines 69-75). -/
structure PromoCode where
  code : String
  discount_type : String
  discount_value : ℚ
  active : Bool
  expires_at : Option ℤ
deriving Repr, DecidableEq

/-- Row of the `order` table (`app.py` lines 48-57); `created_at` is omitted
as no claim depends on it. -/
structure Order where
  id : ℕ
  cashier_id : ℕ
  total : ℚ
  paid_cash : ℚ
  change_due : ℚ
  payment_method : String
deriving Repr, DecidableEq

/-- Row of the `orderitem` table (`app.py` lines 59-67). -/
structure OrderItem where
  order_id : ℕ
  product_id : ℕ
  quantity : ℕ
  unit_price : ℚ
deriving Repr, DecidableEq

/-- The store state seen by one request: the three tables the checkout flow
touches, the session cart (a mapping `product id → quantity`, kept as an
insertion-ordered association list exactly like a Python dict), the next
order id the database will assign, and the current time `now`
(`datetime.utcnow()`). -/
structure State where
  products : List Product
  promos : List PromoCode
  cart : List (ℕ × ℕ)
  orders : List Order
  orderItems : List OrderItem
  nextOrderId : ℕ
  now : ℤ
deriving Repr, DecidableEq

/-- Model of `Product.query.get(pid)`: primary-key lookup. -/
def getProduct (ps : List Product) (pid : ℕ) : Option Product :=
  ps.find? (fun p => p.id == pid)

/-- Model of `PromoCode.query.filter_by(code=code, active=True).first()`
(`app.py` line 537 and line 494). -/
def lookupPromo (promos : List PromoCode) (code : String) : Option PromoCode :=
  promos.find? (fun pc => pc.code == code && pc.active)

/-- The discount computed for a found, unexpired promo code (`app.py`
lines 539-542 and 496-499): `round(subtotal * value/100, 2)` for percentage
codes, `min(subtotal, value)` for any other `discount_type`. -/
def promoDiscount (pc : PromoCode) (subtotal : ℚ) : ℚ :=
  if pc.discount_type = "percent" then round2 (subtotal * (pc.discount_value / 100))
  else min subtotal pc.discount_value

/-- Promo evaluation shared by `checkout` (lines 536-545) and the POS view
(lines 493-501): look the normalized code up among active codes, require
`expires_at` to be absent or `≥ now`, and return the discount; `none` is
the "Invalid or expired promo code" outcome. -/
def evalPromo (promos : List PromoCode) (now : ℤ) (code : String) (subtotal : ℚ) :
    Option ℚ :=
  match lookupPromo promos code with
  | none => none
  | some pc =>
    match pc.expires_at with
    | none => some (promoDiscount pc subtotal)
    | some t => if t ≥ now then some (promoDiscount pc subtotal) else none

/-! Facts about `rhe` and `round2`. -/

theorem rhe_ge_floor (x : ℚ) : ⌊x⌋ ≤ rhe x := by
  unfold rhe
  split_ifs <;> omega

theorem rhe_le_ceil (x : ℚ) : rhe x ≤ ⌈x⌉ := by
  unfold rhe
  split_ifs with h1 h2 h3
  · exact Int.floor_le_ceil x
  · have h12 : (1:ℚ)/2 ≤ x - ⌊x⌋ := le_of_not_lt h1
    have hlt : (⌊x⌋ : ℚ) < x := by linarith
    have := Int.lt_ceil.mpr hlt
    omega
  · exact Int.floor_le_ceil x
  · have h12 : (1:ℚ)/2 ≤ x - ⌊x⌋ := le_of_not_lt h1
    have hlt : (⌊x⌋ : ℚ) < x := by linarith
    have := Int.lt_ceil.mpr hlt
    omega

theorem round2_nonneg {x : ℚ} (hx : 0 ≤ x) : 0 ≤ round2 x := by
  unfold round2
  have h1 : (0:ℤ) ≤ ⌊(100:ℚ) * x⌋ := Int.le_floor.mpr (by push_cast; linarith)
  have h2 : (0:ℤ) ≤ rhe (100 * x) := le_trans h1 (rhe_ge_floor _)
  have : (0:ℚ) ≤ (rhe (100 * x) : ℚ) := by exact_mod_cast h2
  positivity

theorem round2_le_grid {x : ℚ} (k : ℤ) (h : x ≤ (k : ℚ) / 100) :
    round2 x ≤ (k : ℚ) / 100 := by
  unfold round2
  have h100 : (100:ℚ) * x ≤ (k : ℚ) := by linarith
  have hceil : ⌈(100:ℚ) * x⌉ ≤ k := Int.ceil_le.mpr h100
  have hr : rhe (100 * x) ≤ k := le_trans (rhe_le_ceil _) hceil
  have : (rhe (100 * x) : ℚ) ≤ (k : ℚ) := by exact_mod_cast hr
  linarith

/-- Bounds for the discount formula itself: they need the percentage value
to lie in `[0,100]` and the subtotal to be a whole number of cents, or a
non-negative fixed value. -/
theorem promoDiscount_bounds (pc : PromoCode) (s : ℚ) (hs : 0 ≤ s)
    (hperc : pc.discount_type = "percent" →
      0 ≤ pc.discount_value ∧ pc.discount_value ≤ 100 ∧ ∃ j : ℤ, s = (j : ℚ) / 100)
    (hfix : pc.discount_type ≠ "percent" → 0 ≤ pc.discount_value) :
    0 ≤ promoDiscount pc s ∧ promoDiscount pc s ≤ s := by
  unfold promoDiscount
  split_ifs with ht
  · obtain ⟨hv0, hv100, j, hj⟩ := hperc ht
    have harg0 : 0 ≤ s * (pc.discount_value / 100) := by positivity
    have harg1 : s * (pc.discount_value / 100) ≤ s := by
      have : pc.discount_value / 100 ≤ 1 := by
        rw [div_le_one (by norm_num : (0:ℚ) < 100)]; exact hv100
      nlinarith
    refine ⟨round2_nonneg harg0, ?_⟩
    rw [hj] at harg1 ⊢
    exact round2_le_grid j harg1
  · have hv := hfix ht
    exact ⟨le_min hs hv, min_le_left _ _⟩

/-- C1 (counterexample): a stored percentage promo with value 200 — which
the admin form accepts, since the `[0,100]` range is not enforced — gives a
discount of 200 on a subtotal of 100, violating `discount ≤ subtotal`. -/
theorem claim_C1_counterexample :
    (0:ℚ) ≤ 100 ∧
    evalPromo [⟨"OVER", "percent", 200, true, none⟩] 0 "OVER" 100 = some 200 ∧
    ¬ ((200:ℚ) ≤ 100) := by
  refine ⟨by norm_num, ?_, by norm_num⟩
  show evalPromo [⟨"OVER", "percent", 200, true, none⟩] 0 "OVER" 100 = some 200
  norm_num [evalPromo, lookupPromo, List.find?, promoDiscount, round2, rhe]

/-- C1 (amended): for every promo evaluation against a subtotal `s ≥ 0`,
if every stored percentage promo has its value in `[0,100]` and every other
promo a non-negative value, and `s` is a whole number of cents, then the
computed discount lies in `[0, s]`. -/
theorem claim_C1 (promos : List PromoCode) (now : ℤ) (code : String) (s d : ℚ)
    (hs : 0 ≤ s)
    (hd : evalPromo promos now code s = some d)
    (hok : ∀ pc ∈ promos,
      (pc.discount_type = "percent" → 0 ≤ pc.discount_value ∧ pc.discount_value ≤ 100) ∧
      (pc.discount_type ≠ "percent" → 0 ≤ pc.discount_value))
    (hcents : ∃ j : ℤ, s = (j : ℚ) / 100) :
    0 ≤ d ∧ d ≤ s := by
  unfold evalPromo at hd
  split at hd
  · exact absurd hd (by simp)
  · rename_i pc hpc
    have hmem : pc ∈ promos := List.mem_of_find?_eq_some hpc
    have hbounds := promoDiscount_bounds pc s hs
      (fun hp => ⟨((hok pc hmem).1 hp).1, ((hok pc hmem).1 hp).2, hcents⟩)
      (fun hp => (hok pc hmem).2 hp)
    split at hd
    · simp only [Option.some.injEq] at hd
      subst hd; exact hbounds
    · split at hd
      · simp only [Option.some.injEq] at hd
        subst hd; exact hbounds
      · exact absurd hd (by simp)

/-- Witness for the amended C1 at the spec's own scenario: `SAVE10`
(percent, 10) on a subtotal of 200 yields a discount of 20 ∈ [0, 200]. -/
theorem claim_C1_witness :
    (0:ℚ) ≤ 200 ∧ (0 ≤ (20:ℚ) ∧ (20:ℚ) ≤ 200) := by
  refine ⟨by norm_num, ?_⟩
  refine claim_C1 [⟨"SAVE10", "percent", 10, true, none⟩] 0 "SAVE10" 200 20
    (by norm_num) ?_ ?_ ⟨20000, by norm_num⟩
  · norm_num [evalPromo, lookupPromo, List.find?, promoDiscount, round2, rhe]
  · intro pc hpc
    simp only [List.mem_singleton] at hpc
    subst hpc
    exact ⟨fun _ => by norm_num, fun h => absurd rfl h⟩

/-! The checkout engine (`app.py` lines 513-581). -/

/-- The failure modes of `checkout`; each corresponds to one
flash-and-redirect exit (`app.py` lines 519, 527, 544, 555). -/
inductive CheckoutError where
  | emptyCart
  | insufficientStock (name : String)
  | invalidPromo
  | insufficientPayment
deriving Repr, DecidableEq

/-- The checkout form fields read by the handler: `payment_method`
(defaulting to "cash"), the raw `promo_code` text, and `paid_cash` parsed
as a number. -/
structure CheckoutForm where
  payment_method : String
  promo_code : String
  paid_cash : ℚ
deriving Repr, DecidableEq

/-- The first loop of `checkout` (lines 523-529): walk the cart entries,
resolve each product, fail with `InsufficientStockError` (naming the
product, or "Unknown" when it no longer exists) when `stock < qty`, and
accumulate `subtotal += product.price * qty` unrounded. -/
def validateAndSubtotal (ps : List Product) (acc : ℚ) :
    List (ℕ × ℕ) → Except CheckoutError ℚ
  | [] => .ok acc
  | e :: rest =>
    match getProduct ps e.1 with
    | none => .error (.insufficientStock "Unknown")
    | some p =>
      if p.stock < (e.2 : ℤ) then .error (.insufficientStock p.name)
      else validateAndSubtotal ps (acc + p.price * (e.2 : ℚ)) rest

/-- The unrounded sum `Σ product.price * qty` over the cart entries whose
product still exists; the shape of the cart-view loop (lines 475-488). -/
def cartSum (ps : List Product) (cart : List (ℕ × ℕ)) : ℚ :=
  (cart.filterMap (fun e => (getProduct ps e.1).map (fun p => p.price * (e.2 : ℚ)))).sum

/-- Subtotal step of `checkout` on the session cart. -/
def checkoutSubtotal (st : State) : Except CheckoutError ℚ :=
  validateAndSubtotal st.products 0 st.cart

/-- Promo step of `checkout` (lines 534-545): normalize the form's code; an
empty code means no discount, otherwise a failed evaluation aborts the
checkout with the promo error. -/
def checkoutDiscount (st : State) (form : CheckoutForm) (subtotal : ℚ) :
    Except CheckoutError ℚ :=
  let code := normalizeCode form.promo_code
  if code = "" then .ok 0
  else
    match evalPromo st.promos st.now code subtotal with
    | none => .error .invalidPromo
    | some d => .ok d

/-- Total step of `checkout` (line 547): `max(0.0, round(subtotal -
promo_discount, 2))`. -/
def checkoutTotalDue (st : State) (form : CheckoutForm) : Except CheckoutError ℚ :=
  match checkoutSubtotal st with
  | .error e => .error e
  | .ok subtotal =>
    match checkoutDiscount st form subtotal with
    | .error e => .error e
    | .ok d => .ok (max 0 (round2 (subtotal - d)))

/-- Payment branch of `checkout` (lines 549-560), returning
`(amount_paid, change_due)`. -/
def checkoutPayment (form : CheckoutForm) (total_due : ℚ) :
    Except CheckoutError (ℚ × ℚ) :=
  if form.payment_method = "cash" then
    if form.paid_cash < total_due then .error .insufficientPayment
    else .ok (form.paid_cash, round2 (form.paid_cash - total_due))
  else .ok (total_due, 0)

/-- Update the (unique) product row with the given primary key, leaving the
rest of the table alone. -/
def updateFirst (f : Product → Product) (pid : ℕ) : List Product → List Product
  | [] => []
  | p :: rest => if p.id = pid then f p :: rest else p :: updateFirst f pid rest

/-- Second loop of `checkout` (lines 574-577): per cart entry, create an
`OrderItem` capturing the current price and decrement the product's stock.
A cart entry whose product is missing is skipped; after a successful
validation pass this case cannot occur. -/
def createItemsAndDecrement (oid : ℕ) : List Product → List (ℕ × ℕ) →
    List Product × List OrderItem
  | ps, [] => (ps, [])
  | ps, e :: rest =>
    match getProduct ps e.1 with
    | none => createItemsAndDecrement oid ps rest
    | some p =>
      let ps' := updateFirst (fun q => { q with stock := q.stock - (e.2 : ℤ) }) e.1 ps
      let r := createItemsAndDecrement oid ps' rest
      (r.1, OrderItem.mk oid p.id e.2 p.price :: r.2)

/-- The whole `checkout` handler (lines 513-581) as a function from state
and form input to either an error (flash + redirect, nothing persisted) or
the updated state together with the created order. -/
def checkout (st : State) (cid : ℕ) (form : CheckoutForm) :
    Except CheckoutError (State × Order) :=
  if st.cart = [] then .error .emptyCart
  else
    match checkoutTotalDue st form with
    | .error e => .error e
    | .ok total_due =>
      match checkoutPayment form total_due with
      | .error e => .error e
      | .ok pay =>
        let order : Order :=
          { id := st.nextOrderId, cashier_id := cid, total := total_due,
            paid_cash := pay.1, change_due := pay.2,
            payment_method := form.payment_method }
        let r := createItemsAndDecrement st.nextOrderId st.products st.cart
        .ok ({ st with products := r.1,
                       orders := st.orders ++ [order],
                       orderItems := st.orderItems ++ r.2,
                       cart := [],
                       nextOrderId := st.nextOrderId + 1 }, order)

/-- The checkout request seen from the outside: on failure the handler only
flashes a warning and redirects, so the state is returned unchanged. -/
def checkoutRequest (st : State) (cid : ℕ) (form : CheckoutForm) :
    State × Except CheckoutError Order :=
  match checkout st cid form with
  | .error e => (st, .error e)
  | .ok (st', o) => (st', .ok o)

/-- Anatomy of a successful checkout: the cart was non-empty, the pricing
and payment steps all succeeded, the created order carries their results,
and the new state is the old one with the stock decremented, the order and
its items appended, and the cart cleared. -/
theorem checkout_ok {st : State} {cid : ℕ} {form : CheckoutForm}
    {st' : State} {o : Order}
    (hc : checkout st cid form = .ok (st', o)) :
    ∃ total_due pay,
      st.cart ≠ [] ∧
      checkoutTotalDue st form = .ok total_due ∧
      checkoutPayment form total_due = .ok pay ∧
      o = { id := st.nextOrderId, cashier_id := cid, total := total_due,
            paid_cash := pay.1, change_due := pay.2,
            payment_method := form.payment_method } ∧
      st' = { st with
              products := (createItemsAndDecrement st.nextOrderId st.products st.cart).1,
              orders := st.orders ++ [o],
              orderItems := st.orderItems ++ (createItemsAndDecrement st.nextOrderId st.products st.cart).2,
              cart := [],
              nextOrderId := st.nextOrderId + 1 } := by
  unfold checkout at hc
  split at hc
  · exact absurd hc (by simp)
  · rename_i hcart
    split at hc
    · exact absurd hc (by simp)
    · rename_i total_due htd
      split at hc
      · exact absurd hc (by simp)
      · rename_i pay hpay
        simp only [Except.ok.injEq, Prod.mk.injEq] at hc
        obtain ⟨hst', ho⟩ := hc
        exact ⟨total_due, pay, hcart, htd, hpay, ho.symm, by rw [← hst', ← ho]⟩

/-- A successful validation pass returns the accumulator plus the unrounded
cart sum; no rounding is applied per line item. -/
theorem validateAndSubtotal_ok_sum {ps : List Product} {cart : List (ℕ × ℕ)}
    {acc s : ℚ} (h : validateAndSubtotal ps acc cart = .ok s) :
    s = acc + cartSum ps cart := by
  induction cart generalizing acc with
  | nil =>
    simp only [validateAndSubtotal, Except.ok.injEq] at h
    simp [cartSum, ← h]
  | cons e rest ih =>
    unfold validateAndSubtotal at h
    split at h
    · exact absurd h (by simp)
    · rename_i p hp
      split at h
      · exact absurd h (by simp)
      · rw [ih h]
        simp only [cartSum, List.filterMap_cons, hp, Option.map_some', List.sum_cons]
        ring

/-- A successful validation pass means every cart entry resolved to an
existing product with enough stock. -/
theorem validateAndSubtotal_ok_resolve {ps : List Product} {cart : List (ℕ × ℕ)}
    {acc s : ℚ} (h : validateAndSubtotal ps acc cart = .ok s) :
    ∀ e ∈ cart, ∃ p, getProduct ps e.1 = some p ∧ (e.2 : ℤ) ≤ p.stock := by
  induction cart generalizing acc with
  | nil => simp
  | cons e rest ih =>
    unfold validateAndSubtotal at h
    split at h
    · exact absurd h (by simp)
    · rename_i p hp
      split at h
      · exact absurd h (by simp)
      · rename_i hstock
        intro a ha
        rcases List.mem_cons.mp ha with rfl | ha'
        · exact ⟨p, hp, by omega⟩
        · exact ih h a ha'

/-- C2: every successfully persisted order's total is
`max(0, round(subtotal - discount, 2))`, where the subtotal is the
unrounded sum `Σ price * qty` over the cart and the discount is the promo
step's result (0 without a promo code). -/
theorem claim_C2 (st : State) (cid : ℕ) (form : CheckoutForm) (st' : State)
    (o : Order) (sub d : ℚ)
    (hc : checkout st cid form = .ok (st', o))
    (hsub : checkoutSubtotal st = .ok sub)
    (hd : checkoutDiscount st form sub = .ok d) :
    o.total = max 0 (round2 (sub - d)) ∧ sub = cartSum st.products st.cart := by
  obtain ⟨total_due, pay, hcart, htd, hpay, ho, hst'⟩ := checkout_ok hc
  constructor
  · simp only [checkoutTotalDue, hsub, hd, Except.ok.injEq] at htd
    rw [ho, ← htd]
  · have h0 := validateAndSubtotal_ok_sum (hsub : validateAndSubtotal st.products 0 st.cart = .ok sub)
    simpa using h0

/-- C3: checkout is atomic — a failing request returns the state completely
unchanged (cart, catalog, orders and items), and a successful one returns
the order, appends it, and clears the cart. -/
theorem claim_C3 (st : State) (cid : ℕ) (form : CheckoutForm) :
    ((∃ e, (checkoutRequest st cid form).2 = .error e) ∧
      (checkoutRequest st cid form).1 = st) ∨
    (∃ o, (checkoutRequest st cid form).2 = .ok o ∧
      (checkoutRequest st cid form).1.cart = [] ∧
      (checkoutRequest st cid form).1.orders = st.orders ++ [o]) := by
  unfold checkoutRequest
  cases hc : checkout st cid form with
  | error e => exact Or.inl ⟨⟨e, rfl⟩, rfl⟩
  | ok p =>
    obtain ⟨st', o⟩ := p
    obtain ⟨_, _, _, _, _, _, hst'⟩ := checkout_ok hc
    exact Or.inr ⟨o, rfl, by rw [hst'], by rw [hst']⟩

/-- C4: the payment branch — for cash, success implies the tendered amount
covers the total, the order records the tendered amount, and the change is
`round(cashTendered - total, 2)`; for any non-cash method the order records
`amountPaid = total` and `changeDue = 0`; and a cash payment below the
computed total is rejected with the payment error. -/
theorem claim_C4 (st : State) (cid : ℕ) (form : CheckoutForm) :
    (∀ st' o, checkout st cid form = .ok (st', o) →
      (form.payment_method = "cash" →
        o.total ≤ form.paid_cash ∧ o.paid_cash = form.paid_cash ∧
        o.change_due = round2 (form.paid_cash - o.total)) ∧
      (form.payment_method ≠ "cash" →
        o.paid_cash = o.total ∧ o.change_due = 0)) ∧
    (∀ total_due, st.cart ≠ [] → checkoutTotalDue st form = .ok total_due →
      form.payment_method = "cash" → form.paid_cash < total_due →
      checkout st cid form = .error .insufficientPayment) := by
  constructor
  · intro st' o hc
    obtain ⟨total_due, pay, hcart, htd, hpay, ho, hst'⟩ := checkout_ok hc
    unfold checkoutPayment at hpay
    constructor
    · intro hcash
      rw [if_pos hcash] at hpay
      split at hpay
      · exact absurd hpay (by simp)
      · rename_i hlt
        simp only [Except.ok.injEq] at hpay
        subst ho
        rw [← hpay]
        exact ⟨not_lt.mp hlt, rfl, rfl⟩
    · intro hncash
      rw [if_neg hncash] at hpay
      simp only [Except.ok.injEq] at hpay
      subst ho
      rw [← hpay]
      exact ⟨rfl, rfl⟩
  · intro total_due hcart htd hcash hlt
    simp [checkout, if_neg hcart, htd, checkoutPayment, hcash, hlt]

/-- Promo evaluation fails exactly when no active promo carries the code,
or the found promo's expiry timestamp lies strictly before `now`. -/
theorem evalPromo_eq_none_iff (promos : List PromoCode) (now : ℤ) (code : String)
    (sub : ℚ) :
    evalPromo promos now code sub = none ↔
      (lookupPromo promos code = none ∨
       ∃ pc t, lookupPromo promos code = some pc ∧ pc.expires_at = some t ∧
         t < now) := by
  cases h : lookupPromo promos code with
  | none => simp [evalPromo, h]
  | some pc =>
    cases hexp : pc.expires_at with
    | none => simp [evalPromo, h, hexp]
    | some t =>
      by_cases hge : t ≥ now
      · simp only [evalPromo, h, hexp]
        rw [if_pos hge]
        constructor
        · intro hh; exact absurd hh (by simp)
        · rintro (hh | ⟨pc', t', hpc', hexp', hlt⟩)
          · exact absurd hh (by simp)
          · simp only [Option.some.injEq] at hpc'
            subst hpc'
            rw [hexp] at hexp'
            simp only [Option.some.injEq] at hexp'
            omega
      · simp only [evalPromo, h, hexp]
        rw [if_neg hge]
        exact ⟨fun _ => Or.inr ⟨pc, t, rfl, hexp, by omega⟩, fun _ => rfl⟩

/-- C5: a checkout carrying a non-empty promo code is rejected with the
promo error exactly when the uppercase-normalized code matches no active
promo or the matched promo's expiry is strictly before the evaluation
time; in particular an expiry equal to `now` is accepted. -/
theorem claim_C5 (st : State) (cid : ℕ) (form : CheckoutForm) (sub : ℚ)
    (hcart : st.cart ≠ [])
    (hsub : checkoutSubtotal st = .ok sub)
    (hne : normalizeCode form.promo_code ≠ "") :
    (checkout st cid form = .error .invalidPromo) ↔
      (lookupPromo st.promos (normalizeCode form.promo_code) = none ∨
       ∃ pc t, lookupPromo st.promos (normalizeCode form.promo_code) = some pc ∧
         pc.expires_at = some t ∧ t < st.now) := by
  rw [← evalPromo_eq_none_iff st.promos st.now (normalizeCode form.promo_code) sub]
  constructor
  · intro hc
    cases he : evalPromo st.promos st.now (normalizeCode form.promo_code) sub with
    | none => rfl
    | some d =>
      exfalso
      have hdisc : checkoutDiscount st form sub = .ok d := by
        simp [checkoutDiscount, if_neg hne, he]
      have htd : checkoutTotalDue st form = .ok (max 0 (round2 (sub - d))) := by
        simp [checkoutTotalDue, hsub, hdisc]
      simp only [checkout, if_neg hcart, htd] at hc
      split at hc
      · rename_i e hpay
        unfold checkoutPayment at hpay
        split_ifs at hpay
        all_goals simp_all
      · exact absurd hc (by simp)
  · intro he
    have hdisc : checkoutDiscount st form sub = .error .invalidPromo := by
      simp [checkoutDiscount, if_neg hne, he]
    have htd : checkoutTotalDue st form = .error .invalidPromo := by
      simp [checkoutTotalDue, hsub, hdisc]
    simp [checkout, if_neg hcart, htd]

/-! Session-cart operations (`app.py` lines 414-470). The cart is a Python
dict `str(product.id) → qty`; we model it as an insertion-ordered
association list whose keys are unique. -/

/-- The quantity stored for a product id, `cart.get(pid, 0)`. -/
def qtyIn (cart : List (ℕ × ℕ)) (pid : ℕ) : ℕ :=
  match cart.find? (fun e => e.1 == pid) with
  | some e => e.2
  | none => 0

/-- Dict assignment `cart[pid] = q`: replace the value at an existing key
in place, else append a new entry. -/
def cartSet : List (ℕ × ℕ) → ℕ → ℕ → List (ℕ × ℕ)
  | [], pid, q => [(pid, q)]
  | e :: rest, pid, q =>
    if e.1 = pid then (pid, q) :: rest else e :: cartSet rest pid q

/-- The add actions (`add_by_barcode` line 439, `add_by_id` line 468):
`cart[pid] = cart.get(pid, 0) + 1`. -/
def cartAdd (cart : List (ℕ × ℕ)) (pid : ℕ) : List (ℕ × ℕ) :=
  cartSet cart pid (qtyIn cart pid + 1)

/-- The `update_qty` action (lines 441-448): clamp the submitted quantity
with `max(0, qty)`; zero removes the entry (`cart.pop`), anything positive
is stored. -/
def cartUpdateQty (cart : List (ℕ × ℕ)) (pid : ℕ) (rawQty : ℤ) :
    List (ℕ × ℕ) :=
  if max 0 rawQty = 0 then cart.eraseP (fun e => e.1 == pid)
  else cartSet cart pid (max 0 rawQty).toNat

/-- The `clear` action (line 450): `set_cart({})`. -/
def cartClear : List (ℕ × ℕ) := []

theorem qtyIn_cons (e : ℕ × ℕ) (c : List (ℕ × ℕ)) (x : ℕ) :
    qtyIn (e :: c) x = if e.1 = x then e.2 else qtyIn c x := by
  by_cases h : e.1 = x
  · simp [qtyIn, List.find?_cons_of_pos, h]
  · rw [if_neg h]
    unfold qtyIn
    rw [List.find?_cons_of_neg]
    simp [h]

theorem qtyIn_eq_of_mem {c : List (ℕ × ℕ)} {k v : ℕ}
    (hkeys : (c.map Prod.fst).Nodup) (hmem : (k, v) ∈ c) : qtyIn c k = v := by
  induction c with
  | nil => cases hmem
  | cons e rest ih =>
    simp only [List.map_cons, List.nodup_cons] at hkeys
    obtain ⟨hnotin, hkeys'⟩ := hkeys
    rw [qtyIn_cons]
    rcases List.mem_cons.mp hmem with heq | h'
    · rw [← heq]; simp
    · have hne : e.1 ≠ k := fun hek =>
        hnotin (hek ▸ List.mem_map_of_mem Prod.fst h')
      rw [if_neg hne]
      exact ih hkeys' h'

theorem qtyIn_eq_zero_of_not_mem {c : List (ℕ × ℕ)} {k : ℕ}
    (h : k ∉ c.map Prod.fst) : qtyIn c k = 0 := by
  unfold qtyIn
  rw [List.find?_eq_none.mpr]
  intro e he
  simp only [beq_iff_eq]
  exact fun hek => h (hek ▸ List.mem_map_of_mem Prod.fst he)

theorem mem_cartSet {c : List (ℕ × ℕ)} {pid q : ℕ} {e : ℕ × ℕ}
    (h : e ∈ cartSet c pid q) : e = (pid, q) ∨ e ∈ c := by
  induction c with
  | nil => simpa [cartSet] using h
  | cons a rest ih =>
    unfold cartSet at h
    split_ifs at h with ha
    · rcases List.mem_cons.mp h with heq | h'
      · exact Or.inl heq
      · exact Or.inr (List.mem_cons_of_mem a h')
    · rcases List.mem_cons.mp h with heq | h'
      · exact Or.inr (heq ▸ List.mem_cons_self a rest)
      · rcases ih h' with heq | hmem
        · exact Or.inl heq
        · exact Or.inr (List.mem_cons_of_mem a hmem)

theorem qtyIn_cartSet_self (c : List (ℕ × ℕ)) (pid q : ℕ) :
    qtyIn (cartSet c pid q) pid = q := by
  induction c with
  | nil => simp [cartSet, qtyIn, List.find?_cons_of_pos]
  | cons a rest ih =>
    unfold cartSet
    split_ifs with ha
    · simp [qtyIn, List.find?_cons_of_pos]
    · rw [qtyIn_cons, if_neg ha]
      exact ih

/-- C8: the cart operations preserve the invariant that every present
entry has a positive quantity; `add` bumps the entry's quantity by one
(inserting at 1), `update_qty` with a non-positive raw quantity removes
the entry and with a positive one stores exactly it, and `clear` leaves
nothing. -/
theorem claim_C8 (cart : List (ℕ × ℕ))
    (hinv : ∀ e ∈ cart, 0 < e.2)
    (hkeys : (cart.map Prod.fst).Nodup) :
    (∀ pid, ∀ e ∈ cartAdd cart pid, 0 < e.2) ∧
    (∀ pid rawQty, ∀ e ∈ cartUpdateQty cart pid rawQty, 0 < e.2) ∧
    (∀ e ∈ cartClear, 0 < e.2) ∧
    (∀ pid, qtyIn (cartAdd cart pid) pid = qtyIn cart pid + 1) ∧
    (∀ pid rawQty, rawQty ≤ 0 → ∀ e ∈ cartUpdateQty cart pid rawQty, e.1 ≠ pid) ∧
    (∀ pid rawQty, 0 < rawQty →
      qtyIn (cartUpdateQty cart pid rawQty) pid = rawQty.toNat) := by
  refine ⟨?_, ?_, ?_, ?_, ?_, ?_⟩
  · intro pid e he
    rcases mem_cartSet he with rfl | hmem
    · simp
    · exact hinv e hmem
  · intro pid rawQty e he
    unfold cartUpdateQty at he
    split_ifs at he with h0
    · exact hinv e ((List.eraseP_sublist cart).mem he)
    · rcases mem_cartSet he with rfl | hmem
      · simp only
        omega

      · exact hinv e hmem
  · intro e he
    cases he
  · intro pid
    exact qtyIn_cartSet_self cart pid _
  · intro pid rawQty hle e he
    unfold cartUpdateQty at he
    rw [if_pos (by omega : max 0 rawQty = 0)] at he
    induction cart with
    | nil => cases he
    | cons a rest ih =>
      simp only [List.map_cons, List.nodup_cons] at hkeys
      obtain ⟨hnotin, hkeys'⟩ := hkeys
      by_cases ha : a.1 = pid
      · rw [List.eraseP_cons_of_pos (by simpa using ha)] at he
        exact fun hepid =>
          hnotin (ha ▸ hepid ▸ List.mem_map_of_mem Prod.fst he)
      · rw [List.eraseP_cons_of_neg (by simpa using ha)] at he
        rcases List.mem_cons.mp he with rfl | he'
        · exact ha
        · exact ih (fun x hx => hinv x (List.mem_cons_of_mem a hx)) hkeys' he'
  · intro pid rawQty hpos
    unfold cartUpdateQty
    rw [if_neg (by omega : ¬ max 0 rawQty = 0),
      max_eq_right (le_of_lt hpos)]
    exact qtyIn_cartSet_self cart pid _

/-! Facts about primary-key lookup and the stock-decrement loop. -/

theorem getProduct_some_id {ps : List Product} {pid : ℕ} {p : Product}
    (h : getProduct ps pid = some p) : p.id = pid := by
  have := List.find?_some h
  simpa using this

theorem getProduct_self {ps : List Product}
    (hids : (ps.map Product.id).Nodup) {p : Product} (hp : p ∈ ps) :
    getProduct ps p.id = some p := by
  induction ps with
  | nil => cases hp
  | cons q rest ih =>
    simp only [List.map_cons, List.nodup_cons] at hids
    obtain ⟨hqnot, hrest⟩ := hids
    rcases List.mem_cons.mp hp with heq | h'
    · rw [← heq]
      unfold getProduct
      rw [List.find?_cons_of_pos _ (by simp)]
    · have hne : q.id ≠ p.id := fun he =>
        hqnot (he ▸ List.mem_map_of_mem Product.id h')
      unfold getProduct
      rw [List.find?_cons_of_neg _ (by simpa using hne)]
      exact ih hrest h'

theorem getProduct_eq_none_iff {ps : List Product} {pid : ℕ} :
    getProduct ps pid = none ↔ ∀ p ∈ ps, p.id ≠ pid := by
  unfold getProduct
  rw [List.find?_eq_none]
  simp

theorem getProduct_cons_of_pos {q : Product} {x : ℕ} (ps : List Product)
    (h : q.id = x) : getProduct (q :: ps) x = some q := by
  unfold getProduct
  rw [List.find?_cons_of_pos _ (by simpa using h)]

theorem getProduct_cons_of_neg {q : Product} {x : ℕ} (ps : List Product)
    (h : q.id ≠ x) : getProduct (q :: ps) x = getProduct ps x := by
  unfold getProduct
  rw [List.find?_cons_of_neg _ (by simpa using h)]

theorem updateFirst_map_id (f : Product → Product)
    (hf : ∀ p, (f p).id = p.id) (pid : ℕ) (ps : List Product) :
    (updateFirst f pid ps).map Product.id = ps.map Product.id := by
  induction ps with
  | nil => rfl
  | cons q rest ih =>
    unfold updateFirst
    by_cases h : q.id = pid
    · simp [h, hf]
    · simp [h, ih]

theorem updateFirst_eq_map {ps : List Product}
    (hids : (ps.map Product.id).Nodup) (f : Product → Product) (pid : ℕ) :
    updateFirst f pid ps = ps.map (fun p => if p.id = pid then f p else p) := by
  induction ps with
  | nil => rfl
  | cons q rest ih =>
    simp only [List.map_cons, List.nodup_cons] at hids
    obtain ⟨hqnot, hrest⟩ := hids
    unfold updateFirst
    by_cases h : q.id = pid
    · rw [if_pos h]
      simp only [List.map_cons, if_pos h]
      congr 1
      have hpt : ∀ p ∈ rest, (if p.id = pid then f p else p) = id p := by
        intro p hp
        rw [if_neg (fun he => hqnot (by
          rw [h, ← he]
          exact List.mem_map_of_mem Product.id hp))]
        rfl
      rw [List.map_congr_left hpt, List.map_id]
    · rw [if_neg h]
      simp only [List.map_cons, if_neg h]
      exact congrArg (q :: ·) (ih hrest)

theorem getProduct_updateFirst (f : Product → Product)
    (hf : ∀ p, (f p).id = p.id) (pid x : ℕ) (ps : List Product) :
    getProduct (updateFirst f pid ps) x =
      if x = pid then (getProduct ps pid).map f else getProduct ps x := by
  induction ps with
  | nil =>
    unfold updateFirst getProduct
    simp only [List.find?_nil, Option.map_none']
    split <;> rfl
  | cons q rest ih =>
    unfold updateFirst
    by_cases hq : q.id = pid
    · rw [if_pos hq]
      by_cases hx : x = pid
      · rw [if_pos hx,
          getProduct_cons_of_pos rest (show (f q).id = x by rw [hf, hq, hx]),
          getProduct_cons_of_pos rest (show q.id = pid from hq)]
        rfl
      · rw [if_neg hx,
          getProduct_cons_of_neg rest
            (show (f q).id ≠ x by rw [hf, hq]; exact fun h => hx h.symm),
          getProduct_cons_of_neg rest
            (show q.id ≠ x by rw [hq]; exact fun h => hx h.symm)]
    · rw [if_neg hq]
      by_cases hqx : q.id = x
      · have hx : ¬ x = pid := fun h => hq (h ▸ hqx)
        rw [getProduct_cons_of_pos _ hqx, if_neg hx,
          getProduct_cons_of_pos rest hqx]
      · rw [getProduct_cons_of_neg _ hqx, ih]
        by_cases hx : x = pid
        · rw [if_pos hx, if_pos hx, getProduct_cons_of_neg rest hq]
        · rw [if_neg hx, if_neg hx, getProduct_cons_of_neg rest hqx]

theorem createItemsAndDecrement_products (oid : ℕ) (ps : List Product)
    (cart : List (ℕ × ℕ)) (hkeys : (cart.map Prod.fst).Nodup)
    (hids : (ps.map Product.id).Nodup) :
    (createItemsAndDecrement oid ps cart).1 =
      ps.map (fun p => { p with stock := p.stock - (qtyIn cart p.id : ℤ) }) := by
  induction cart generalizing ps with
  | nil =>
    have hpt : ∀ p ∈ ps,
        ({ p with stock := p.stock - (qtyIn [] p.id : ℤ) }) = id p := by
      intro p _
      simp [qtyIn]
    rw [List.map_congr_left hpt, List.map_id]
    rfl
  | cons e rest ih =>
    simp only [List.map_cons, List.nodup_cons] at hkeys
    obtain ⟨hnotin, hkeys'⟩ := hkeys
    unfold createItemsAndDecrement
    cases hg : getProduct ps e.1 with
    | none =>
      simp only
      rw [ih ps hkeys' hids]
      apply List.map_congr_left
      intro p hp
      have hne : e.1 ≠ p.id :=
        fun he => (getProduct_eq_none_iff.mp hg p hp) he.symm
      rw [qtyIn_cons, if_neg hne]
    | some p0 =>
      simp only
      have hf : ∀ q : Product,
          (({ q with stock := q.stock - (e.2 : ℤ) } : Product)).id = q.id :=
        fun q => rfl
      have hids' : (((updateFirst
          (fun q => { q with stock := q.stock - (e.2 : ℤ) }) e.1 ps)).map
          Product.id).Nodup := by
        rw [updateFirst_map_id _ hf]
        exact hids
      rw [ih _ hkeys' hids', updateFirst_eq_map hids _ e.1, List.map_map]
      apply List.map_congr_left
      intro p hp
      simp only [Function.comp_apply]
      by_cases hpe : p.id = e.1
      · have h0 : qtyIn rest p.id = 0 :=
          qtyIn_eq_zero_of_not_mem (hpe ▸ hnotin)

        rw [if_pos hpe, qtyIn_cons, if_pos hpe.symm]
        simp [h0]
      · rw [if_neg hpe, qtyIn_cons, if_neg (fun h => hpe h.symm)]

theorem createItemsAndDecrement_items (oid : ℕ) (ps : List Product)
    (cart : List (ℕ × ℕ)) :
    (createItemsAndDecrement oid ps cart).2 =
      cart.filterMap (fun e => (getProduct ps e.1).map
        (fun p => OrderItem.mk oid p.id e.2 p.price)) := by
  induction cart generalizing ps with
  | nil => rfl
  | cons e rest ih =>
    unfold createItemsAndDecrement
    cases hg : getProduct ps e.1 with
    | none =>
      simp only [List.filterMap_cons, hg, Option.map_none']
      exact ih ps
    | some p0 =>
      simp only [List.filterMap_cons, hg, Option.map_some']
      congr 1
      rw [ih]
      apply List.filterMap_congr
      intro a _
      rw [getProduct_updateFirst
        (fun q => { q with stock := q.stock - (e.2 : ℤ) }) (fun q => rfl)
        e.1 a.1 ps]
      by_cases hax : a.1 = e.1
      · rw [if_pos hax, hax, hg]
        rfl
      · rw [if_neg hax]

theorem cartSum_cons_none {ps : List Product} {e : ℕ × ℕ}
    {rest : List (ℕ × ℕ)} (hg : getProduct ps e.1 = none) :
    cartSum ps (e :: rest) = cartSum ps rest := by
  simp [cartSum, List.filterMap_cons, hg]

theorem cartSum_cons_some {ps : List Product} {e : ℕ × ℕ}
    {rest : List (ℕ × ℕ)} {p : Product} (hg : getProduct ps e.1 = some p) :
    cartSum ps (e :: rest) = p.price * (e.2 : ℚ) + cartSum ps rest := by
  simp [cartSum, List.filterMap_cons, hg]

theorem items_quantity_price_sum (oid : ℕ) (ps : List Product)
    (cart : List (ℕ × ℕ)) :
    ((cart.filterMap (fun e => (getProduct ps e.1).map
        (fun p => OrderItem.mk oid p.id e.2 p.price))).map
      (fun it => (it.quantity : ℚ) * it.unit_price)).sum = cartSum ps cart := by
  induction cart with
  | nil => rfl
  | cons e rest ih =>
    cases hg : getProduct ps e.1 with
    | none =>
      rw [cartSum_cons_none hg]
      simp only [List.filterMap_cons, hg, Option.map_none']
      exact ih
    | some p =>
      rw [cartSum_cons_some hg]
      simp only [List.filterMap_cons, hg, Option.map_some', List.map_cons,
        List.sum_cons]
      rw [ih]
      ring

/-- C6: a successful checkout rewrites the catalog so that every product's
stock drops by exactly the quantity bought (zero for products not in the
cart), and the pre-validated stock bound makes every decremented stock
non-negative. -/
theorem claim_C6 (st : State) (cid : ℕ) (form : CheckoutForm) (st' : State)
    (o : Order)
    (hc : checkout st cid form = .ok (st', o))
    (hkeys : (st.cart.map Prod.fst).Nodup)
    (hids : (st.products.map Product.id).Nodup) :
    st'.products = st.products.map
      (fun p => { p with stock := p.stock - (qtyIn st.cart p.id : ℤ) }) ∧
    ∀ p ∈ st.products, ∀ qty, (p.id, qty) ∈ st.cart →
      (qty : ℤ) ≤ p.stock ∧ 0 ≤ p.stock - (qtyIn st.cart p.id : ℤ) := by
  obtain ⟨total_due, pay, hcart, htd, hpay, ho, hst'⟩ := checkout_ok hc
  constructor
  · rw [hst']
    exact createItemsAndDecrement_products st.nextOrderId st.products st.cart
      hkeys hids
  · intro p hp qty hq
    obtain ⟨sub, hsub⟩ : ∃ sub, checkoutSubtotal st = .ok sub := by
      unfold checkoutTotalDue at htd
      split at htd
      · exact absurd htd (by simp)
      · rename_i sub hsub
        exact ⟨sub, hsub⟩
    have hres := validateAndSubtotal_ok_resolve
      (hsub : validateAndSubtotal st.products 0 st.cart = .ok sub)
      (p.id, qty) hq
    obtain ⟨p', hp', hstock⟩ := hres
    rw [getProduct_self hids hp] at hp'
    simp only [Option.some.injEq] at hp'
    rw [← hp'] at hstock
    have hqty : qtyIn st.cart p.id = qty := qtyIn_eq_of_mem hkeys hq
    rw [hqty]
    exact ⟨hstock, by omega⟩

/-- C7: a successful checkout appends one order item per cart entry,
capturing the product's current price as `unit_price`, and the sum of
`quantity * unit_price` over those items equals the pre-discount
subtotal. -/
theorem claim_C7 (st : State) (cid : ℕ) (form : CheckoutForm) (st' : State)
    (o : Order) (sub : ℚ)
    (hc : checkout st cid form = .ok (st', o))
    (hsub : checkoutSubtotal st = .ok sub) :
    ∃ items, st'.orderItems = st.orderItems ++ items ∧
      (∀ it ∈ items, ∃ p, getProduct st.products it.product_id = some p ∧
        it.unit_price = p.price) ∧
      (items.map (fun it => (it.quantity : ℚ) * it.unit_price)).sum = sub := by
  obtain ⟨total_due, pay, hcart, htd, hpay, ho, hst'⟩ := checkout_ok hc
  refine ⟨(createItemsAndDecrement st.nextOrderId st.products st.cart).2,
    by rw [hst'], ?_, ?_⟩
  · intro it hit
    rw [createItemsAndDecrement_items] at hit
    obtain ⟨e, he, hsome⟩ := List.mem_filterMap.mp hit
    cases hg : getProduct st.products e.1 with
    | none => rw [hg] at hsome; exact absurd hsome (by simp)
    | some p =>
      rw [hg] at hsome
      simp only [Option.map_some', Option.some.injEq] at hsome
      refine ⟨p, ?_, by rw [← hsome]⟩
      rw [← hsome]
      simp only
      rw [getProduct_some_id hg]
      exact hg
  · rw [createItemsAndDecrement_items, items_quantity_price_sum]
    have h0 := validateAndSubtotal_ok_sum
      (hsub : validateAndSubtotal st.products 0 st.cart = .ok sub)
    simpa using h0.symm

/-! The POS cart view (`app.py` lines 472-511, the GET branch of `pos`). -/

/-- What the POS page renders: the unrounded subtotal over resolvable cart
entries, the promo discount (zero when evaluation fails — the view only
flashes a warning), and `max(0.0, round(subtotal - promo_discount, 2))`. -/
structure PosView where
  subtotal : ℚ
  promo_discount : ℚ
  total_after_discount : ℚ
  promo_warned : Bool
deriving Repr, DecidableEq

/-- The GET branch of `pos`: build the cart view (silently dropping entries
whose product was deleted), evaluate the `promo` query parameter with the
same rules as checkout, but fall back to zero discount with a flashed
warning instead of aborting. -/
def posView (st : State) (promoRaw : String) : PosView :=
  let subtotal := cartSum st.products st.cart
  let code := normalizeCode promoRaw
  let r : ℚ × Bool :=
    if code = "" then (0, false)
    else
      match evalPromo st.promos st.now code subtotal with
      | some d => (d, false)
      | none => (0, true)
  { subtotal := subtotal, promo_discount := r.1,
    total_after_discount := max 0 (round2 (subtotal - r.1)),
    promo_warned := r.2 }

/-- The POS GET request mutates nothing: it returns the state as is,
together with the rendered view. -/
def posRequest (st : State) (promoRaw : String) : State × PosView :=
  (st, posView st promoRaw)

/-- C10: in the POS view, a promo code that fails evaluation does not
abort anything — the view is rendered with zero discount, so the displayed
total is `max(0, round(subtotal, 2))`, a warning is flashed, and the cart
(indeed the whole state) is unchanged. -/
theorem claim_C10 (st : State) (promoRaw : String)
    (hne : normalizeCode promoRaw ≠ "")
    (hfail : evalPromo st.promos st.now (normalizeCode promoRaw)
      (cartSum st.products st.cart) = none) :
    (posRequest st promoRaw).1 = st ∧
    (posRequest st promoRaw).2.promo_discount = 0 ∧
    (posRequest st promoRaw).2.total_after_discount =
      max 0 (round2 (cartSum st.products st.cart)) ∧
    (posRequest st promoRaw).2.promo_warned = true := by
  refine ⟨rfl, ?_, ?_, ?_⟩ <;>
    simp [posRequest, posView, if_neg hne, hfail]

/-! Reporting (`app.py` lines 233-273). The monthly branch builds its
twelve buckets by subtracting `timedelta(days=30*i)` from the first of the
current month. We model `datetime` date arithmetic with a day count in the
proleptic Gregorian calendar. -/

/-- Number of days from 0000-03-01 to the given civil date (year ≥ 1,
month in 1..12); standard era-based conversion, all in `ℕ` since every
date handled by `datetime` is far above the epoch. -/
def daysFromCivil (y m d : ℕ) : ℕ :=
  let y' := y - (if m ≤ 2 then 1 else 0)
  let era := y' / 400
  let yoe := y' % 400
  let mp := (m + 9) % 12
  let doy := (153 * mp + 2) / 5 + d - 1
  let doe := yoe * 365 + yoe / 4 - yoe / 100 + doy
  era * 146097 + doe

/-- Inverse of `daysFromCivil`: the civil `(year, month, day)` of a day
count. -/
def civilFromDays (g : ℕ) : ℕ × ℕ × ℕ :=
  let era := g / 146097
  let doe := g % 146097
  let yoe := (doe - doe / 1460 + doe / 36524 - doe / 146096) / 365
  let y' := yoe + era * 400
  let doy := doe - (365 * yoe + yoe / 4 - yoe / 100)
  let mp := (5 * doy + 2) / 153
  let d := doy - (153 * mp + 2) / 5 + 1
  let m := if mp < 10 then mp + 3 else mp - 9
  (y' + (if m ≤ 2 then 1 else 0), m, d)

/-- The `(year, month)` labels of the twelve monthly buckets produced by
`admin_sales_summary` for `range=monthly` (lines 252-258): with `first`
the first of the current month, bucket `i` (for `i = 11 .. 0`) is labelled
by the month containing `first - timedelta(days=30*i)`. -/
def monthsOf (y m : ℕ) : List (ℕ × ℕ) :=
  let first := daysFromCivil y m 1
  (List.range 12).map (fun k =>
    let i := 11 - k
    let c := civilFromDays (first - 30 * i)
    (c.1, c.2.1))

/-- The calendar month preceding a given `(year, month)`. -/
def prevMonth : ℕ × ℕ → ℕ × ℕ
  | (y, m) => if m = 1 then (y - 1, 12) else (y, m - 1)

/-- Step `k` months back from a `(year, month)`. -/
def monthsBack : ℕ → ℕ × ℕ → ℕ × ℕ
  | 0, ym => ym
  | k + 1, ym => monthsBack k (prevMonth ym)

/-- The twelve consecutive calendar months ending with `(y, m)`, oldest
first — what the spec's monthly rollup asks for. -/
def consecutiveMonthsEnding (y m : ℕ) : List (ℕ × ℕ) :=
  (List.range 12).map (fun k => monthsBack (11 - k) (y, m))

/-- C9 fails on the code: evaluated with the current month March 2025, the
`30*i`-day stepping labels December 2024 twice and skips February 2025
entirely, so the buckets are not the twelve consecutive calendar months
ending with the current month. -/
theorem claim_C9 :
    monthsOf 2025 3 ≠ consecutiveMonthsEnding 2025 3 ∧
    ¬ (monthsOf 2025 3).Nodup ∧
    (2024, 12) ∈ monthsOf 2025 3 ∧
    (2025, 2) ∉ monthsOf 2025 3 ∧
    consecutiveMonthsEnding 2025 3 =
      [(2024, 4), (2024, 5), (2024, 6), (2024, 7), (2024, 8), (2024, 9),
       (2024, 10), (2024, 11), (2024, 12), (2025, 1), (2025, 2), (2025, 3)] := by
  refine ⟨?_, ?_, ?_, ?_, ?_⟩ <;> decide

/-! Concrete sample states used to instantiate the checkout theorems: `stW`
runs the spec's cash scenario (price 100, qty 2, tendered 250), `stP`
carries an expired promo code. -/

/-- One product at price 100 with stock 5, a cart holding two of it, and no
promos. -/
def stW : State :=
  { products := [⟨1, "A", "B1", 100, 5, false⟩], promos := [],
    cart := [(1, 2)], orders := [], orderItems := [],
    nextOrderId := 1, now := 0 }

/-- Cash checkout form with 250 tendered and no promo code. -/
def formW : CheckoutForm := ⟨"cash", "", 250⟩

/-- The order `stW`'s checkout creates: total 200, paid 250, change 50. -/
def oW : Order := ⟨1, 7, 200, 250, 50, "cash"⟩

/-- The state after `stW`'s checkout: stock decremented to 3, order and
item appended, cart cleared. -/
def stW2 : State :=
  { products := [⟨1, "A", "B1", 100, 3, false⟩], promos := [],
    cart := [], orders := [oW], orderItems := [⟨1, 1, 2, 100⟩],
    nextOrderId := 2, now := 0 }

theorem stW_sub : checkoutSubtotal stW = .ok 200 := by
  norm_num [checkoutSubtotal, validateAndSubtotal, getProduct, List.find?, stW]

theorem stW_disc : checkoutDiscount stW formW 200 = .ok 0 := by
  have hnorm : normalizeCode "" = "" := by decide
  simp [checkoutDiscount, formW, hnorm]

theorem stW_td : checkoutTotalDue stW formW = .ok 200 := by
  rw [checkoutTotalDue, stW_sub]
  simp only [stW_disc]
  norm_num [round2, rhe]

theorem stW_pay : checkoutPayment formW 200 = .ok (250, 50) := by
  have h1 : formW.payment_method = "cash" := by decide
  have h2 : ¬ formW.paid_cash < 200 := by norm_num [formW]
  rw [checkoutPayment, if_pos h1, if_neg h2]
  norm_num [formW, round2, rhe]

theorem checkoutW_eq : checkout stW 7 formW = .ok (stW2, oW) := by
  rw [checkout, if_neg (show ¬ stW.cart = [] by decide)]
  simp only [stW_td, stW_pay]
  norm_num [createItemsAndDecrement, getProduct, List.find?, updateFirst,
    stW, stW2, oW, formW]

/-- Witness for C2 at the cash scenario: total 200 = max(0, round2(200-0))
and the subtotal is the plain cart sum. -/
theorem claim_C2_witness :
    checkoutSubtotal stW = .ok 200 ∧
    (oW.total = max 0 (round2 ((200:ℚ) - 0)) ∧
      (200:ℚ) = cartSum stW.products stW.cart) :=
  ⟨stW_sub, claim_C2 stW 7 formW stW2 oW 200 0 checkoutW_eq stW_sub stW_disc⟩

/-- Witness for C4 at the cash scenario: tendered 250 covers total 200 and
is recorded, with change round2(250 - 200). -/
theorem claim_C4_witness :
    oW.total ≤ formW.paid_cash ∧ oW.paid_cash = formW.paid_cash ∧
    oW.change_due = round2 (formW.paid_cash - oW.total) :=
  ((claim_C4 stW 7 formW).1 stW2 oW checkoutW_eq).1 (by decide)

/-- A product at price 50 with stock 10, two in the cart, and one active
promo code `OLD` expired at time 5 while the clock reads 10. -/
def stP : State :=
  { products := [⟨1, "A", "B1", 50, 10, false⟩],
    promos := [⟨"OLD", "percent", 10, true, some 5⟩],
    cart := [(1, 2)], orders := [], orderItems := [],
    nextOrderId := 1, now := 10 }

/-- Checkout form supplying the expired promo code `OLD`. -/
def formP : CheckoutForm := ⟨"cash", "OLD", 1000⟩

theorem stP_sub : checkoutSubtotal stP = .ok 100 := by
  norm_num [checkoutSubtotal, validateAndSubtotal, getProduct, List.find?, stP]

/-- Witness for C5: with promo `OLD` expired at 5 and the clock at 10, the
rejection equivalence holds at this checkout. -/
theorem claim_C5_witness :
    stP.cart ≠ [] ∧
    ((checkout stP 7 formP = .error .invalidPromo) ↔
      (lookupPromo stP.promos (normalizeCode formP.promo_code) = none ∨
       ∃ pc t, lookupPromo stP.promos (normalizeCode formP.promo_code) = some pc ∧
         pc.expires_at = some t ∧ t < stP.now)) :=
  ⟨by decide, claim_C5 stP 7 formP 100 (by decide) stP_sub (by decide)⟩

/-- Witness for C6: after the cash scenario's checkout the single product's
stock drops from 5 to 3 and stays non-negative. -/
theorem claim_C6_witness :
    (stW.cart.map Prod.fst).Nodup ∧
    (stW2.products = stW.products.map
      (fun p => { p with stock := p.stock - (qtyIn stW.cart p.id : ℤ) }) ∧
     ∀ p ∈ stW.products, ∀ qty, (p.id, qty) ∈ stW.cart →
       (qty : ℤ) ≤ p.stock ∧ 0 ≤ p.stock - (qtyIn stW.cart p.id : ℤ)) :=
  ⟨by decide, claim_C6 stW 7 formW stW2 oW checkoutW_eq (by decide) (by decide)⟩

/-- Witness for C7: the cash scenario's checkout appends items summing to
the subtotal 200 at the captured unit price. -/
theorem claim_C7_witness :
    checkoutSubtotal stW = .ok 200 ∧
    (∃ items, stW2.orderItems = stW.orderItems ++ items ∧
      (∀ it ∈ items, ∃ p, getProduct stW.products it.product_id = some p ∧
        it.unit_price = p.price) ∧
      (items.map (fun it => (it.quantity : ℚ) * it.unit_price)).sum = 200) :=
  ⟨stW_sub, claim_C7 stW 7 formW stW2 oW 200 checkoutW_eq stW_sub⟩

/-- Witness for C8 on the cart `{1 ↦ 2}`: adding product 3 makes its
quantity 1. -/
theorem claim_C8_witness :
    (∀ e ∈ [((1:ℕ), (2:ℕ))], 0 < e.2) ∧
    qtyIn (cartAdd [(1, 2)] 3) 3 = qtyIn [(1, 2)] 3 + 1 :=
  ⟨by decide, ((claim_C8 [(1, 2)] (by decide) (by decide)).2.2.2.1) 3⟩

/-- Witness for C10: browsing the POS page with the expired code `OLD`
leaves the state untouched and renders discount 0 with a warning. -/
theorem claim_C10_witness :
    normalizeCode "OLD" ≠ "" ∧
    ((posRequest stP "OLD").1 = stP ∧
     (posRequest stP "OLD").2.promo_discount = 0 ∧
     (posRequest stP "OLD").2.total_after_discount =
       max 0 (round2 (cartSum stP.products stP.cart)) ∧
     (posRequest stP "OLD").2.promo_warned = true) :=
  ⟨by decide, claim_C10 stP "OLD" (by decide) (by
    have hn : normalizeCode "OLD" = "OLD" := by decide
    norm_num [evalPromo, lookupPromo, List.find?, stP, hn])⟩

end MallBilling
